import Mathlib

/-!
Verification of the thermal-printer core of the print3r repository
(src/print3r.py, src/print3r_v2.py, src/print3r_v4.py).

A raster image is modelled as its list of pixel rows, top to bottom; a
pixel is `true` when it is black (ink), mirroring PIL mode "1" in which
pixel value 0 is black.  The band slicer, the darkness-adaptive pacer,
the transport session of `PrinterHelper.print_image_bandwise` (retry,
cancellation, paper feed, connection release), device discovery, the
busy-request handling of the UI entry points, and the CP437 text
sanitiser are each embedded as executable Lean functions, and the
specification's claims about them are proved or refuted below.
-/

/-- Fuel-indexed core of the band slicer of
`PrinterHelper.print_image_bandwise` (src/print3r_v4.py lines 374-389).
The Python loop is `y = 0; while y < H: band = img.crop((0, y, w,
min(H, y + band_height))); ...; y += band_height`; cropping rows
`y ..< min (H, y + bh)` of the image is `(rows.drop y).take bh`, so the
successive bands are `rows.take bh`, then the bands of `rows.drop bh`.
The fuel argument (instantiated with `rows.length`, which suffices for
any band height `bh ≥ 1`) only makes the recursion structural. -/
def sliceBandsAux (bh : Nat) : Nat → List (List Bool) → List (List (List Bool))
  | 0, _ => []
  | _ + 1, [] => []
  | fuel + 1, r :: rs => ((r :: rs).take bh) :: sliceBandsAux bh fuel ((r :: rs).drop bh)

/-- The ordered list of bands that `print_image_bandwise` crops from an
image with rows `rows` at maximum band height `bh` (src/print3r_v4.py
lines 376-389).  For `bh = 0` the Python loop would never advance; the
model returns `[]` there, and every theorem below assumes `1 ≤ bh`. -/
def sliceBands (bh : Nat) (rows : List (List Bool)) : List (List (List Bool)) :=
  sliceBandsAux bh rows.length rows

lemma sliceBandsAux_nil (bh fuel : Nat) : sliceBandsAux bh fuel [] = [] := by
  cases fuel <;> rfl

lemma sliceBandsAux_congr (bh : Nat) (hbh : bh ≠ 0) :
    ∀ f1 f2 (rows : List (List Bool)), rows.length ≤ f1 → rows.length ≤ f2 →
      sliceBandsAux bh f1 rows = sliceBandsAux bh f2 rows := by
  intro f1
  induction f1 with
  | zero =>
    intro f2 rows h1 _
    have hr : rows = [] := List.eq_nil_of_length_eq_zero (Nat.le_zero.mp h1)
    subst hr
    rw [sliceBandsAux_nil, sliceBandsAux_nil]
  | succ f ih =>
    intro f2 rows h1 h2
    match rows with
    | [] => rw [sliceBandsAux_nil, sliceBandsAux_nil]
    | r :: rs =>
      match f2 with
      | 0 => simp at h2
      | f2 + 1 =>
        show ((r :: rs).take bh) :: sliceBandsAux bh f ((r :: rs).drop bh)
            = ((r :: rs).take bh) :: sliceBandsAux bh f2 ((r :: rs).drop bh)
        have hb : 0 < bh := Nat.pos_of_ne_zero hbh
        have hlen : ((r :: rs).drop bh).length = (r :: rs).length - bh := by
          simp [List.length_drop]
        congr 1
        apply ih
        · rw [hlen]; simp at h1 ⊢; omega
        · rw [hlen]; simp at h2 ⊢; omega

lemma sliceBands_nil (bh : Nat) : sliceBands bh [] = [] := rfl

lemma sliceBands_cons (bh : Nat) (hbh : bh ≠ 0) (r : List Bool) (rs : List (List Bool)) :
    sliceBands bh (r :: rs) = ((r :: rs).take bh) :: sliceBands bh ((r :: rs).drop bh) := by
  show ((r :: rs).take bh) :: sliceBandsAux bh rs.length ((r :: rs).drop bh)
      = ((r :: rs).take bh) :: sliceBandsAux bh ((r :: rs).drop bh).length ((r :: rs).drop bh)
  have hb : 0 < bh := Nat.pos_of_ne_zero hbh
  congr 1
  apply sliceBandsAux_congr bh hbh
  · simp [List.length_drop]; omega
  · exact le_rfl

lemma sliceBands_join (bh : Nat) (hbh : bh ≠ 0) :
    ∀ (N : Nat) (rows : List (List Bool)), rows.length ≤ N →
      (sliceBands bh rows).flatten = rows := by
  intro N
  induction N with
  | zero =>
    intro rows h
    have hr : rows = [] := List.eq_nil_of_length_eq_zero (Nat.le_zero.mp h)
    subst hr
    simp [sliceBands_nil]
  | succ N ih =>
    intro rows h
    match rows with
    | [] => simp [sliceBands_nil]
    | r :: rs =>
      have hb : 0 < bh := Nat.pos_of_ne_zero hbh
      have hdl : ((r :: rs).drop bh).length ≤ N := by
        simp [List.length_drop, List.length_cons] at *; omega
      rw [sliceBands_cons bh hbh, List.flatten_cons, ih _ hdl, List.take_append_drop]

lemma sliceBands_length_eq (bh : Nat) (hbh : bh ≠ 0) :
    ∀ (N : Nat) (rows : List (List Bool)), rows.length ≤ N → rows ≠ [] →
      (sliceBands bh rows).length = (rows.length + bh - 1) / bh := by
  intro N
  induction N with
  | zero =>
    intro rows h hne
    exact absurd (List.eq_nil_of_length_eq_zero (Nat.le_zero.mp h)) hne
  | succ N ih =>
    intro rows h hne
    match rows with
    | [] => exact absurd rfl hne
    | r :: rs =>
      have hb : 0 < bh := Nat.pos_of_ne_zero hbh
      have hlen1 : 1 ≤ (r :: rs).length := by simp
      rw [sliceBands_cons bh hbh]
      by_cases hle : (r :: rs).length ≤ bh
      · rw [List.drop_eq_nil_of_le hle, sliceBands_nil]
        have h2 : ((r :: rs).length + bh - 1) / bh = 1 := by
          refine le_antisymm ?_ ?_
          · have hlt := (Nat.div_lt_iff_lt_mul hb).mpr
              (show (r :: rs).length + bh - 1 < 2 * bh by omega)
            omega
          · exact (Nat.le_div_iff_mul_le hb).mpr (by omega)
        rw [h2]
        rfl
      · push_neg at hle
        have hdne : (r :: rs).drop bh ≠ [] := by
          intro hc
          have := congrArg List.length hc
          simp [List.length_drop, List.length_cons] at this hle
          omega
        have hdl : ((r :: rs).drop bh).length ≤ N := by
          simp [List.length_drop, List.length_cons] at *; omega
        rw [List.length_cons, ih _ hdl hdne, List.length_drop]
        have e1 : (r :: rs).length - bh + bh - 1 = (r :: rs).length - 1 := by omega
        have e2 : (r :: rs).length + bh - 1 = ((r :: rs).length - 1) + bh := by omega
        rw [e1, e2, Nat.add_div_right _ hb]

lemma sliceBands_dropLast (bh : Nat) (hbh : bh ≠ 0) :
    ∀ (N : Nat) (rows : List (List Bool)), rows.length ≤ N →
      ∀ b ∈ (sliceBands bh rows).dropLast, b.length = bh := by
  intro N
  induction N with
  | zero =>
    intro rows h b hb
    have hr : rows = [] := List.eq_nil_of_length_eq_zero (Nat.le_zero.mp h)
    subst hr
    simp [sliceBands_nil] at hb
  | succ N ih =>
    intro rows h b hb
    match rows with
    | [] => simp [sliceBands_nil] at hb
    | r :: rs =>
      have hbpos : 0 < bh := Nat.pos_of_ne_zero hbh
      rw [sliceBands_cons bh hbh] at hb
      by_cases hle : (r :: rs).length ≤ bh
      · rw [List.drop_eq_nil_of_le hle, sliceBands_nil] at hb
        simp at hb
      · push_neg at hle
        have hdne : (r :: rs).drop bh ≠ [] := by
          intro hc
          have := congrArg List.length hc
          simp [List.length_drop, List.length_cons] at this hle
          omega
        obtain ⟨a, l, hal⟩ := List.exists_cons_of_ne_nil hdne
        have hsne : sliceBands bh ((r :: rs).drop bh) ≠ [] := by
          rw [hal, sliceBands_cons bh hbh]
          exact List.cons_ne_nil _ _
        obtain ⟨x, xs, hx⟩ := List.exists_cons_of_ne_nil hsne
        rw [hx] at hb
        have hdrop : (((r :: rs).take bh) :: x :: xs).dropLast
            = ((r :: rs).take bh) :: (x :: xs).dropLast := rfl
        rw [hdrop] at hb
        rcases List.mem_cons.mp hb with hb1 | hb2
        · rw [hb1, List.length_take]
          exact min_eq_left (le_of_lt hle)
        · have hdl : ((r :: rs).drop bh).length ≤ N := by
            simp [List.length_drop, List.length_cons] at *; omega
          have := ih _ hdl b
          rw [hx] at this
          exact this hb2

/-- C1: for every raster image of height `N ≥ 1` and every maximum band
height `H ≥ 1`, the band slicer of `print_image_bandwise` produces
exactly `⌈N/H⌉ = (N + H - 1) / H` bands, and every band except possibly
the last has height exactly `H`. -/
theorem band_count_spec (bh : Nat) (rows : List (List Bool))
    (hbh : 1 ≤ bh) (hN : 1 ≤ rows.length) :
    (sliceBands bh rows).length = (rows.length + bh - 1) / bh ∧
    ∀ b ∈ (sliceBands bh rows).dropLast, b.length = bh :=
  ⟨sliceBands_length_eq bh (by omega) rows.length rows le_rfl
      (List.length_pos.mp (by omega)),
   sliceBands_dropLast bh (by omega) rows.length rows le_rfl⟩

theorem band_count_spec_witness :
    (sliceBands 20 (List.replicate 45 [true])).length
      = ((List.replicate 45 ([true] : List Bool)).length + 20 - 1) / 20 ∧
    ∀ b ∈ (sliceBands 20 (List.replicate 45 [true])).dropLast, b.length = 20 :=
  band_count_spec 20 (List.replicate 45 [true]) (by norm_num) (by simp)

/-- C2: concatenating the band slicer's output bands top-to-bottom, in
order, reconstructs the sliced raster exactly, pixel for pixel: the
bands are contiguous, non-overlapping and cover the whole image. -/
theorem slicer_roundtrip (bh : Nat) (hbh : 1 ≤ bh) (rows : List (List Bool)) :
    (sliceBands bh rows).flatten = rows :=
  sliceBands_join bh (by omega) rows.length rows le_rfl

theorem slicer_roundtrip_witness :
    (sliceBands 20 (List.replicate 45 [true])).flatten = List.replicate 45 [true] :=
  slicer_roundtrip 20 (by norm_num) (List.replicate 45 [true])

/-- Number of black (ink) pixels in a band: the band loop of
`print_image_bandwise` computes `g = band.convert("L"); hist =
g.histogram(); black_pixels = hist[0]` (src/print3r_v4.py lines
383-385), i.e. the number of pixels with value 0 (black), which in this
model is the number of `true` pixels. -/
def countBlack (band : List (List Bool)) : Nat :=
  (band.map (fun r => r.count true)).sum

/-- Ink coverage of a band of width `w`, height `h` and `black` black
pixels, from src/print3r_v4.py lines 386-387: `total = band.width *
band.height if band.width and band.height else 1; coverage = min(1.0,
max(0.0, black_pixels / float(total)))`.  The Python float arithmetic
is modelled exactly over `ℚ`; the identities and the monotonicity
proved below also hold for IEEE floats. -/
def coverage (w h black : Nat) : ℚ :=
  min 1 (max 0 ((black : ℚ) / ((if w ≠ 0 ∧ h ≠ 0 then w * h else 1 : Nat) : ℚ)))

/-- The pacer's inter-band delay, from src/print3r_v4.py line 388:
`time.sleep(base_sleep + coverage * dark_bonus)`. -/
def pacerDelay (base_sleep dark_bonus : ℚ) (w h black : Nat) : ℚ :=
  base_sleep + coverage w h black * dark_bonus

lemma coverage_zero (w h : Nat) : coverage w h 0 = 0 := by
  unfold coverage
  simp

lemma coverage_nonneg (w h black : Nat) : 0 ≤ coverage w h black := by
  unfold coverage
  exact le_min zero_le_one (le_max_left 0 _)

lemma coverage_le_one (w h black : Nat) : coverage w h black ≤ 1 :=
  min_le_left 1 _

lemma countBlack_all_white (band : List (List Bool))
    (h : ∀ r ∈ band, ∀ c ∈ r, c = false) : countBlack band = 0 := by
  unfold countBlack
  apply List.sum_eq_zero
  intro x hx
  rcases List.mem_map.mp hx with ⟨r, hr, hrx⟩
  rw [← hrx]
  rw [List.count_eq_zero]
  intro ht
  exact absurd (h r hr true ht) (by simp)

lemma countBlack_all_black (w h : Nat) :
    countBlack (List.replicate h (List.replicate w true)) = h * w := by
  unfold countBlack
  rw [List.map_replicate, List.count_replicate_self, List.sum_replicate, smul_eq_mul]

/-- C3: the pacer's delay is exactly `base_sleep + coverage *
dark_bonus`, where coverage is the black-pixel count over
`width * height`, clamped to `[0, 1]`; an all-white band gives exactly
`base_sleep`, an all-black band gives exactly `base_sleep +
dark_bonus`, and the delay is monotonically non-decreasing in
coverage. -/
theorem pacer_delay_spec (base_sleep dark_bonus : ℚ) (w h : Nat)
    (hbonus : 0 ≤ dark_bonus) (hw : w ≠ 0) (hh : h ≠ 0) :
    (∀ black : Nat, pacerDelay base_sleep dark_bonus w h black
        = base_sleep + coverage w h black * dark_bonus) ∧
    (∀ black : Nat, 0 ≤ coverage w h black ∧ coverage w h black ≤ 1) ∧
    (∀ band : List (List Bool), (∀ r ∈ band, ∀ c ∈ r, c = false) →
        pacerDelay base_sleep dark_bonus w band.length (countBlack band) = base_sleep) ∧
    pacerDelay base_sleep dark_bonus w h
        (countBlack (List.replicate h (List.replicate w true)))
      = base_sleep + dark_bonus ∧
    (∀ b1 b2 : Nat, coverage w h b1 ≤ coverage w h b2 →
        pacerDelay base_sleep dark_bonus w h b1 ≤ pacerDelay base_sleep dark_bonus w h b2) := by
  refine ⟨fun _ => rfl, fun black => ⟨coverage_nonneg w h black, coverage_le_one w h black⟩,
    ?_, ?_, ?_⟩
  · intro band hwhite
    rw [countBlack_all_white band hwhite]
    unfold pacerDelay
    rw [coverage_zero, zero_mul, add_zero]
  · rw [countBlack_all_black w h]
    unfold pacerDelay coverage
    have htot : (if w ≠ 0 ∧ h ≠ 0 then w * h else 1) = w * h := if_pos ⟨hw, hh⟩
    rw [htot]
    have hcast : ((w * h : Nat) : ℚ) ≠ 0 := by
      exact_mod_cast mul_ne_zero hw hh
    have hdiv : ((h * w : Nat) : ℚ) / ((w * h : Nat) : ℚ) = 1 := by
      rw [Nat.mul_comm h w]
      exact div_self hcast
    rw [hdiv, max_eq_right zero_le_one, min_self, one_mul]
  · intro b1 b2 hcov
    unfold pacerDelay
    exact add_le_add_left (mul_le_mul_of_nonneg_right hcov hbonus) base_sleep

theorem pacer_delay_spec_witness :
    pacerDelay 1 2 1 1 (countBlack (List.replicate 1 (List.replicate 1 true))) = 1 + 2 :=
  (pacer_delay_spec 1 2 1 1 (by norm_num) one_ne_zero one_ne_zero).2.2.2.1

/-- One band send with the single-retry policy of
`PrinterHelper._with_retry` (src/print3r_v4.py lines 258-263): the
first attempt (`sendOk i 0`) is made; on failure, after a fixed
`time.sleep(0.3)` pause, exactly one retry (`sendOk i 1`) is made.
`some a` means the band was delivered once, after `a` attempts;
`none` means both attempts failed and the exception propagates. -/
def withRetryAttempts (sendOk : Nat → Nat → Bool) (i : Nat) : Option Nat :=
  if sendOk i 0 then some 1 else if sendOk i 1 then some 2 else none

/-- Number of attempts a delivered band took under `sendOk`. -/
def attemptsOf (sendOk : Nat → Nat → Bool) (i : Nat) : Nat :=
  if sendOk i 0 then 1 else 2

/-- How the `while` loop of `print_image_bandwise` exited:
it ran out of bands, it broke on the cancellation poll, or the retry of
a band send failed and the exception propagated out of the loop. -/
inductive BodyExit where
  | finished : BodyExit
  | cancelledAt : Nat → BodyExit
  | raisedAt : Nat → BodyExit
deriving DecidableEq, Repr

/-- The band loop of `print_image_bandwise` (src/print3r_v4.py lines
376-389): with `rem` bands still to go and `i` the next band index,
each iteration first polls `cancel_flag_getter` (`cancel i` is the
value returned by the poll made before band `i`), breaking on `true`;
otherwise it sends band `i` through the retry wrapper, recording the
band index and the number of attempts; a double failure raises.
Returns the bands delivered in order, paired with how the loop
exited. -/
def bandLoopAux (cancel : Nat → Bool) (sendOk : Nat → Nat → Bool) :
    Nat → List (Nat × Nat) → Nat → List (Nat × Nat) × BodyExit
  | _, acc, 0 => (acc.reverse, BodyExit.finished)
  | i, acc, rem + 1 =>
    if cancel i then (acc.reverse, BodyExit.cancelledAt i)
    else
      match withRetryAttempts sendOk i with
      | none => (acc.reverse, BodyExit.raisedAt i)
      | some a => bandLoopAux cancel sendOk (i + 1) ((i, a) :: acc) rem

/-- Terminal outcome of one transport session, as reported by the
callers of `print_image_bandwise` (spec section 6). -/
inductive Outcome where
  | completed : Outcome
  | cancelled : Nat → Outcome
  | sendFailed : Nat → Outcome
  | deviceUnavailable : Outcome
deriving DecidableEq, Repr

/-- Observable result of one `print_image_bandwise` job: which bands
were delivered (with attempt counts), whether `safe_feed` ran, whether
a device handle was left open, and the terminal outcome. -/
structure SessionResult where
  sent : List (Nat × Nat)
  feedDone : Bool
  handleLeftOpen : Bool
  outcome : Outcome
deriving DecidableEq, Repr

/-- Control-flow model of `PrinterHelper.print_image_bandwise`
(src/print3r_v4.py lines 355-390) over `n` bands.  `openOk` models
whether `self._open()` succeeds; on failure no handle is ever acquired.
On success the body runs under `with self._open() as printer:`, whose
`__exit__` closes the handle on the normal path and on the exception
path alike, so `handleLeftOpen` is `false` on every branch.
`self.safe_feed(printer, feed_lines)` sits after the loop inside the
`with` block: it runs when the loop finishes or breaks on cancellation,
but is skipped when a double send failure raises. -/
def printImageBandwise (openOk : Bool) (cancel : Nat → Bool)
    (sendOk : Nat → Nat → Bool) (n : Nat) : SessionResult :=
  if openOk then
    match bandLoopAux cancel sendOk 0 [] n with
    | (s, BodyExit.finished) => ⟨s, true, false, Outcome.completed⟩
    | (s, BodyExit.cancelledAt i) => ⟨s, true, false, Outcome.cancelled i⟩
    | (s, BodyExit.raisedAt i) => ⟨s, false, false, Outcome.sendFailed i⟩
  else ⟨[], false, false, Outcome.deviceUnavailable⟩

/-- The `rem` consecutive (band index, attempts) records starting at
band `i` that a clean run of the loop delivers. -/
def expectedSent (sendOk : Nat → Nat → Bool) : Nat → Nat → List (Nat × Nat)
  | _, 0 => []
  | i, rem + 1 => (i, attemptsOf sendOk i) :: expectedSent sendOk (i + 1) rem

lemma withRetryAttempts_eq_some (sendOk : Nat → Nat → Bool) (i : Nat)
    (h : sendOk i 0 = true ∨ sendOk i 1 = true) :
    withRetryAttempts sendOk i = some (attemptsOf sendOk i) := by
  unfold withRetryAttempts attemptsOf
  rcases h with h | h
  · simp [h]
  · by_cases h0 : sendOk i 0 <;> simp [h0, h]

lemma bandLoopAux_clean (cancel : Nat → Bool) (sendOk : Nat → Nat → Bool) :
    ∀ (rem i : Nat) (acc : List (Nat × Nat)),
      (∀ j, i ≤ j → j < i + rem → cancel j = false) →
      (∀ j, i ≤ j → j < i + rem → sendOk j 0 = true ∨ sendOk j 1 = true) →
      bandLoopAux cancel sendOk i acc rem
        = (acc.reverse ++ expectedSent sendOk i rem, BodyExit.finished) := by
  intro rem
  induction rem with
  | zero => intro i acc _ _; simp [bandLoopAux, expectedSent]
  | succ rem ih =>
    intro i acc hc hs
    have hci : cancel i = false := hc i le_rfl (by omega)
    have hsi : withRetryAttempts sendOk i = some (attemptsOf sendOk i) :=
      withRetryAttempts_eq_some sendOk i (hs i le_rfl (by omega))
    simp only [bandLoopAux, hci, Bool.false_eq_true, if_false, hsi]
    rw [ih (i + 1) ((i, attemptsOf sendOk i) :: acc)
      (fun j hj1 hj2 => hc j (by omega) (by omega))
      (fun j hj1 hj2 => hs j (by omega) (by omega))]
    simp [expectedSent, List.reverse_cons, List.append_assoc]

lemma bandLoopAux_cancel_run (cancel : Nat → Bool) (sendOk : Nat → Nat → Bool) :
    ∀ (d i rem : Nat) (acc : List (Nat × Nat)), d < rem →
      (∀ j, i ≤ j → j < i + d → cancel j = false) →
      cancel (i + d) = true →
      (∀ j, i ≤ j → j < i + d → sendOk j 0 = true ∨ sendOk j 1 = true) →
      bandLoopAux cancel sendOk i acc rem
        = (acc.reverse ++ expectedSent sendOk i d, BodyExit.cancelledAt (i + d)) := by
  intro d
  induction d with
  | zero =>
    intro i rem acc hdr _ hct _
    obtain ⟨rem', rfl⟩ : ∃ t, rem = t + 1 := ⟨rem - 1, by omega⟩
    have hci : cancel i = true := by simpa using hct
    simp [bandLoopAux, hci, expectedSent]
  | succ d ih =>
    intro i rem acc hdr hc hct hs
    obtain ⟨rem', rfl⟩ : ∃ t, rem = t + 1 := ⟨rem - 1, by omega⟩
    have hci : cancel i = false := hc i le_rfl (by omega)
    have hsi : withRetryAttempts sendOk i = some (attemptsOf sendOk i) :=
      withRetryAttempts_eq_some sendOk i (hs i le_rfl (by omega))
    simp only [bandLoopAux, hci, Bool.false_eq_true, if_false, hsi]
    have hidx : i + 1 + d = i + (d + 1) := by omega
    rw [ih (i + 1) rem' ((i, attemptsOf sendOk i) :: acc) (by omega)
      (fun j hj1 hj2 => hc j (by omega) (by omega))
      (by rw [hidx]; exact hct)
      (fun j hj1 hj2 => hs j (by omega) (by omega))]
    simp [expectedSent, List.reverse_cons, List.append_assoc, hidx]

lemma bandLoopAux_raise_run (cancel : Nat → Bool) (sendOk : Nat → Nat → Bool) :
    ∀ (d i rem : Nat) (acc : List (Nat × Nat)), d < rem →
      (∀ j, i ≤ j → j ≤ i + d → cancel j = false) →
      (∀ j, i ≤ j → j < i + d → sendOk j 0 = true ∨ sendOk j 1 = true) →
      sendOk (i + d) 0 = false → sendOk (i + d) 1 = false →
      bandLoopAux cancel sendOk i acc rem
        = (acc.reverse ++ expectedSent sendOk i d, BodyExit.raisedAt (i + d)) := by
  intro d
  induction d with
  | zero =>
    intro i rem acc hdr hc _ hf0 hf1
    obtain ⟨rem', rfl⟩ : ∃ t, rem = t + 1 := ⟨rem - 1, by omega⟩
    have hci : cancel i = false := hc i le_rfl (by omega)
    have hw : withRetryAttempts sendOk i = none := by
      unfold withRetryAttempts
      simp only [show sendOk i 0 = false by simpa using hf0,
        show sendOk i 1 = false by simpa using hf1]
      simp
    simp [bandLoopAux, hci, hw, expectedSent]
  | succ d ih =>
    intro i rem acc hdr hc hs hf0 hf1
    obtain ⟨rem', rfl⟩ : ∃ t, rem = t + 1 := ⟨rem - 1, by omega⟩
    have hci : cancel i = false := hc i le_rfl (by omega)
    have hsi : withRetryAttempts sendOk i = some (attemptsOf sendOk i) :=
      withRetryAttempts_eq_some sendOk i (hs i le_rfl (by omega))
    simp only [bandLoopAux, hci, Bool.false_eq_true, if_false, hsi]
    have hidx : i + 1 + d = i + (d + 1) := by omega
    rw [ih (i + 1) rem' ((i, attemptsOf sendOk i) :: acc) (by omega)
      (fun j hj1 hj2 => hc j (by omega) (by omega))
      (fun j hj1 hj2 => hs j (by omega) (by omega))
      (by rw [hidx]; exact hf0) (by rw [hidx]; exact hf1)]
    simp [expectedSent, List.reverse_cons, List.append_assoc, hidx]

lemma expectedSent_eq_range (sendOk : Nat → Nat → Bool) :
    ∀ (rem i : Nat), expectedSent sendOk i rem
      = (List.range rem).map (fun t => (i + t, attemptsOf sendOk (i + t))) := by
  intro rem
  induction rem with
  | zero => intro i; simp [expectedSent]
  | succ rem ih =>
    intro i
    rw [List.range_succ_eq_map]
    simp only [expectedSent, ih (i + 1), List.map_cons, List.map_map]
    rw [Nat.add_zero]
    congr 1
    apply List.map_congr_left
    intro t ht
    have hidx : i + 1 + t = i + (t + 1) := by omega
    simp [Function.comp, hidx]

/-- C4: if the cancellation flag is still clear at every poll up to and
including the one before band `k`, and is set at the poll before band
`k + 1` (that is, it was raised after band `k` was sent and before band
`k + 1` was started), then bands `0 .. k` are delivered, no band after
`k` is ever sent, the paper feed still occurs, the device connection is
released, and the session ends in the cancelled outcome. -/
theorem cancellation_between_bands (n k : Nat) (cancel : Nat → Bool)
    (sendOk : Nat → Nat → Bool) (hk : k + 1 < n)
    (hc1 : ∀ j, j ≤ k → cancel j = false)
    (hc2 : cancel (k + 1) = true)
    (hs : ∀ j, sendOk j 0 = true) :
    (printImageBandwise true cancel sendOk n).sent
      = (List.range (k + 1)).map (fun j => (j, 1)) ∧
    (printImageBandwise true cancel sendOk n).feedDone = true ∧
    (printImageBandwise true cancel sendOk n).handleLeftOpen = false ∧
    (printImageBandwise true cancel sendOk n).outcome = Outcome.cancelled (k + 1) := by
  have hloop := bandLoopAux_cancel_run cancel sendOk (k + 1) 0 n [] hk
    (fun j hj1 hj2 => hc1 j (by omega))
    (by simpa using hc2)
    (fun j hj1 hj2 => Or.inl (hs j))
  have hsent : expectedSent sendOk 0 (k + 1)
      = (List.range (k + 1)).map (fun j => (j, 1)) := by
    rw [expectedSent_eq_range]
    apply List.map_congr_left
    intro t ht
    simp [attemptsOf, hs t]
  simp only [printImageBandwise, if_true, hloop]
  simp [hsent]

theorem cancellation_between_bands_witness :
    (printImageBandwise true (fun j => decide (1 ≤ j)) (fun _ _ => true) 3).sent
      = (List.range (0 + 1)).map (fun j => (j, 1)) ∧
    (printImageBandwise true (fun j => decide (1 ≤ j)) (fun _ _ => true) 3).feedDone = true ∧
    (printImageBandwise true (fun j => decide (1 ≤ j)) (fun _ _ => true) 3).handleLeftOpen = false ∧
    (printImageBandwise true (fun j => decide (1 ≤ j)) (fun _ _ => true) 3).outcome
      = Outcome.cancelled (0 + 1) :=
  cancellation_between_bands 3 0 (fun j => decide (1 ≤ j)) (fun _ _ => true)
    (by norm_num)
    (by intro j hj; have hj0 : j = 0 := Nat.le_zero.mp hj; subst hj0; rfl)
    (by rfl)
    (fun j => rfl)

/-- C5: the device connection is released on every exit path of a print
job.  The `with self._open() as printer:` block of
`print_image_bandwise` closes the handle on normal completion, on the
cancellation break, and when a send failure raises out of the loop; and
if `_open` itself fails no handle is ever acquired.  Hence no
combination of open result, cancellation polls, send outcomes and band
count leaves a device handle open. -/
theorem device_released_on_all_paths (openOk : Bool) (cancel : Nat → Bool)
    (sendOk : Nat → Nat → Bool) (n : Nat) :
    (printImageBandwise openOk cancel sendOk n).handleLeftOpen = false := by
  unfold printImageBandwise
  cases openOk
  · simp
  · rcases h : bandLoopAux cancel sendOk 0 [] n with ⟨s, e⟩
    cases e <;> simp [h]

/-- C6: a band send that fails is retried exactly once; if the retry
also fails the job aborts at that band and no later band is sent (and,
per the code, the feed is skipped on that exception path, though the
handle is still released); a send that fails once and then succeeds on
retry delivers the band exactly once (it appears once in the delivered
list, with attempt count 2) and the job continues normally through all
remaining bands.  `sendOk1` is a scenario in which band `m`'s send and
its single retry both fail; `sendOk2` one in which band `m`'s send
fails and the retry succeeds; all other bands send on first try and the
cancellation flag is never raised. -/
theorem retry_policy_spec (n m : Nat) (cancel : Nat → Bool)
    (sendOk1 sendOk2 : Nat → Nat → Bool) (hm : m < n)
    (hc : ∀ j, cancel j = false)
    (h1a : ∀ j, j ≠ m → sendOk1 j 0 = true)
    (h1b : sendOk1 m 0 = false) (h1c : sendOk1 m 1 = false)
    (h2a : ∀ j, j ≠ m → sendOk2 j 0 = true)
    (h2b : sendOk2 m 0 = false) (h2c : sendOk2 m 1 = true) :
    (printImageBandwise true cancel sendOk1 n).outcome = Outcome.sendFailed m ∧
    (printImageBandwise true cancel sendOk1 n).sent
      = (List.range m).map (fun j => (j, 1)) ∧
    (printImageBandwise true cancel sendOk1 n).handleLeftOpen = false ∧
    (printImageBandwise true cancel sendOk2 n).outcome = Outcome.completed ∧
    (printImageBandwise true cancel sendOk2 n).sent
      = (List.range n).map (fun j => (j, if j = m then 2 else 1)) ∧
    ((printImageBandwise true cancel sendOk2 n).sent.map Prod.fst).count m = 1 ∧
    (printImageBandwise true cancel sendOk2 n).feedDone = true := by
  have hloop1 := bandLoopAux_raise_run cancel sendOk1 m 0 n [] hm
    (fun j hj1 hj2 => hc j)
    (fun j hj1 hj2 => Or.inl (h1a j (by omega)))
    (by simpa using h1b) (by simpa using h1c)
  have hsent1 : expectedSent sendOk1 0 m = (List.range m).map (fun j => (j, 1)) := by
    rw [expectedSent_eq_range]
    apply List.map_congr_left
    intro t ht
    have ht' : t ≠ m := by
      rcases List.mem_range.mp ht with h
      omega
    simp [attemptsOf, h1a t ht']
  have hloop2 := bandLoopAux_clean cancel sendOk2 n 0 []
    (fun j hj1 hj2 => hc j)
    (fun j hj1 hj2 => by
      by_cases hjm : j = m
      · subst hjm; exact Or.inr h2c
      · exact Or.inl (h2a j hjm))
  have hsent2 : expectedSent sendOk2 0 n
      = (List.range n).map (fun j => (j, if j = m then 2 else 1)) := by
    rw [expectedSent_eq_range]
    apply List.map_congr_left
    intro t ht
    by_cases htm : t = m
    · subst htm; simp [attemptsOf, h2b]
    · simp [attemptsOf, h2a t htm, htm]
  have hfst : ((List.range n).map (fun j => (j, if j = m then 2 else 1))).map
      (Prod.fst (α := Nat) (β := Nat)) = List.range n := by
    rw [List.map_map]
    have : (Prod.fst (α := Nat) (β := Nat)) ∘ (fun j => (j, if j = m then 2 else 1))
        = fun j => j := rfl
    rw [this]
    simp
  have hcount : (List.range n).count m = 1 :=
    List.count_eq_one_of_mem (List.nodup_range n) (List.mem_range.mpr hm)
  refine ⟨?_, ?_, ?_, ?_, ?_, ?_, ?_⟩ <;>
    simp only [printImageBandwise, if_true, hloop1, hloop2] <;>
    simp [hsent1, hsent2, hfst, hcount]

theorem retry_policy_spec_witness :
    (printImageBandwise true (fun _ => false) (fun j _ => decide (j ≠ 0)) 2).outcome
      = Outcome.sendFailed 0 ∧
    (printImageBandwise true (fun _ => false) (fun j _ => decide (j ≠ 0)) 2).sent
      = (List.range 0).map (fun j => (j, 1)) ∧
    (printImageBandwise true (fun _ => false) (fun j _ => decide (j ≠ 0)) 2).handleLeftOpen
      = false ∧
    (printImageBandwise true (fun _ => false)
        (fun j a => decide (j ≠ 0 ∨ a = 1)) 2).outcome = Outcome.completed ∧
    (printImageBandwise true (fun _ => false)
        (fun j a => decide (j ≠ 0 ∨ a = 1)) 2).sent
      = (List.range 2).map (fun j => (j, if j = 0 then 2 else 1)) ∧
    ((printImageBandwise true (fun _ => false)
        (fun j a => decide (j ≠ 0 ∨ a = 1)) 2).sent.map Prod.fst).count 0 = 1 ∧
    (printImageBandwise true (fun _ => false)
        (fun j a => decide (j ≠ 0 ∨ a = 1)) 2).feedDone = true :=
  retry_policy_spec 2 0 (fun _ => false) (fun j _ => decide (j ≠ 0))
    (fun j a => decide (j ≠ 0 ∨ a = 1))
    (by norm_num) (fun j => rfl)
    (fun j hj => decide_eq_true hj) (by rfl) (by rfl)
    (fun j hj => decide_eq_true (Or.inl hj)) (by rfl) (by decide)

/-- The image-print job run by `ThermalPrintTool.print_thread_function`
(src/print3r_v4.py lines 813-835).  The worker wakes on the event and
calls `print_image_bandwise` with `cancel_flag_getter=lambda:
self.print_cancel_flag`; nowhere on this path is `print_cancel_flag`
written, so with no concurrent cancel request during the job every poll
returns the flag value left over from before the job
(`staleFlag`). -/
def printThreadImageJob (staleFlag : Bool) (sendOk : Nat → Nat → Bool)
    (n : Nat) : SessionResult :=
  printImageBandwise true (fun _ => staleFlag) sendOk n

/-- The text-print job run by `ThermalPrintTool._print_text_job`
(src/print3r_v4.py lines 1000-1010).  Its first statement is
`self.print_cancel_flag = False`, so with no concurrent cancel request
during the job every poll returns `false`, whatever value
(`staleFlag`) the flag held before the job. -/
def printTextJob (_staleFlag : Bool) (sendOk : Nat → Nat → Bool)
    (n : Nat) : SessionResult :=
  printImageBandwise true (fun _ => false) sendOk n

/-- C7 evaluation at the failing input: after a cancelled job leaves
`print_cancel_flag = True`, a next, independently started image job
(which `print_thread_function` runs without clearing the flag) is
cancelled at its very first poll and sends zero bands, while a text job
started in the same state (whose `_print_text_job` clears the flag
first) completes and sends all its bands.  This refutes the claim that
the flag is cleared at the start of every kind of job. -/
theorem stale_cancel_flag_evaluation :
    (printThreadImageJob true (fun _ _ => true) 3).outcome = Outcome.cancelled 0 ∧
    (printThreadImageJob true (fun _ _ => true) 3).sent = [] ∧
    (printTextJob true (fun _ _ => true) 3).outcome = Outcome.completed ∧
    ((printTextJob true (fun _ _ => true) 3).sent.map Prod.fst) = [0, 1, 2] := by
  decide

/-- Result of probing one serial port during discovery: whether
`ThermalPrinter(port=..., heat_time=HEAT_TIME)` opens, whether the
opened printer object has an `identify` attribute, and what
`printer.identify()` returns (`none` models the call raising). -/
structure PortProbe where
  opens : Bool
  hasIdentify : Bool
  identifyAnswer : Option String
deriving DecidableEq, Repr

/-- Whether `ThermalPrintTool.detect_printer` of src/print3r_v4.py
(lines 795-810) returns a given port: the port must open, and then
either the printer object has no `identify` attribute (the `else`
branch returns the port), or `identify()` returns the exact string
"ThermalPrinter"; if `identify` exists but raises or answers anything
else, the loop falls through to the next port. -/
def acceptsPort (p : PortProbe) : Bool :=
  p.opens &&
    (if p.hasIdentify then decide (p.identifyAnswer = some "ThermalPrinter") else true)

/-- `ThermalPrintTool.detect_printer` of src/print3r_v4.py lines
795-810: scan the candidate ports in order and return the first one the
loop accepts; every probe failure is swallowed by
`except Exception: continue`, and `None` is returned (never raising) if
no port is accepted. -/
def detect_printer_v4 (ports : List PortProbe) : Option PortProbe :=
  ports.find? acceptsPort

/-- `ThermalPrintTool.detect_printer` of src/print3r_v2.py lines
180-189: return the first port on which the printer opens; no identity
check is made. -/
def detect_printer_v2 (ports : List PortProbe) : Option PortProbe :=
  ports.find? (fun p => p.opens)

/-- C8 counterexample: a single candidate port that opens successfully,
whose driver supports `identify` but answers "Modem", is not returned
by v4 discovery — `detect_printer` yields `None` even though a port
opened successfully, contradicting the claim that discovery returns
the first port that opens successfully. -/
theorem detect_identity_counterexample :
    (PortProbe.mk true true (some "Modem")).opens = true ∧
    detect_printer_v4 [PortProbe.mk true true (some "Modem")] = none := by
  decide

lemma find_accepted_unique (q : PortProbe → Bool) :
    ∀ (ports : List PortProbe) (p : PortProbe), p ∈ ports → q p = true →
      (∀ r ∈ ports, r ≠ p → q r = false) → ports.find? q = some p := by
  intro ports
  induction ports with
  | nil => intro p hp; simp at hp
  | cons a as ih =>
    intro p hmem hp huniq
    by_cases hap : a = p
    · subst hap
      rw [List.find?_cons_of_pos _ hp]
    · have ha : q a = false := huniq a (List.mem_cons_self a as) hap
      rw [List.find?_cons_of_neg _ (by simp [ha])]
      refine ih p ?_ hp ?_
      · rcases List.mem_cons.mp hmem with h | h
        · exact absurd h.symm hap
        · exact h
      · intro r hr hrp
        exact huniq r (List.mem_cons_of_mem _ hr) hrp

/-- C8 amended: v4 discovery skips every port that fails to open and
returns the first port it accepts, where a port is accepted when it
opens and either the driver supports no identity query or `identify()`
answers "ThermalPrinter" (a port that opens but whose supported
`identify()` raises or answers differently is skipped); with zero
accepted candidates it returns `None` without raising, and with exactly
one accepted candidate it returns that port.  v2 discovery, which has
no identity check, returns `None` when no port opens. -/
theorem detect_printer_amended (ports : List PortProbe) (p : PortProbe)
    (hmem : p ∈ ports) (hp : acceptsPort p = true)
    (huniq : ∀ q ∈ ports, q ≠ p → acceptsPort q = false) :
    detect_printer_v4 ports = some p ∧
    (∀ ps : List PortProbe, (∀ q ∈ ps, acceptsPort q = false) →
        detect_printer_v4 ps = none) ∧
    (∀ q : PortProbe, q.opens = false → acceptsPort q = false) ∧
    (∀ q : PortProbe, q.opens = true → q.hasIdentify = false → acceptsPort q = true) ∧
    (∀ ps : List PortProbe, (∀ q ∈ ps, q.opens = false) →
        detect_printer_v2 ps = none) := by
  refine ⟨find_accepted_unique acceptsPort ports p hmem hp huniq, ?_, ?_, ?_, ?_⟩
  · intro ps hall
    exact List.find?_eq_none.mpr (fun q hq => by simp [hall q hq])
  · intro q hq
    unfold acceptsPort
    simp [hq]
  · intro q hq1 hq2
    unfold acceptsPort
    simp [hq1, hq2]
  · intro ps hall
    exact List.find?_eq_none.mpr (fun q hq => by simp [hall q hq])

theorem detect_printer_amended_witness :
    detect_printer_v4 [PortProbe.mk false false none, PortProbe.mk true false none]
      = some (PortProbe.mk true false none) :=
  (detect_printer_amended [PortProbe.mk false false none, PortProbe.mk true false none]
    (PortProbe.mk true false none) (by decide) (by decide) (by decide)).1

/-- Outcome of a UI print request. -/
inductive RequestOutcome where
  | accepted : RequestOutcome
  | rejectedNoImage : RequestOutcome
  | rejectedBusy : RequestOutcome
deriving DecidableEq, Repr

/-- Worker-visible state shared with the UI entry points: whether the
print event is set (a job is pending or running) and the images the
worker reads.  Images are abstracted to identifiers. -/
structure UiState where
  eventSet : Bool
  sourceImage : Option Nat
  displayImage : Option Nat
deriving DecidableEq, Repr

/-- `ThermalPrintTool.print_image` of src/print3r_v2.py lines 285-292:
no image loaded shows an error dialog; otherwise, if `print_event` is
already set the request is rejected with the busy error dialog and
nothing is touched; otherwise the event is set. -/
def print_image_v2 (s : UiState) : UiState × RequestOutcome :=
  if s.sourceImage = none then (s, RequestOutcome.rejectedNoImage)
  else if s.eventSet then (s, RequestOutcome.rejectedBusy)
  else ({ s with eventSet := true }, RequestOutcome.accepted)

/-- `do_print_and_close` inside
`ThermalPrintTool.open_image_print_dialog` of src/print3r_v4.py lines
938-946: only a missing processed image is rejected; otherwise
`self.source_image` and `self.display_image` are overwritten and
`self.print_event.set()` is called, with no check of whether the event
is already set.  `processed` and `src` are the dialog's local processed
1-bit image and source image. -/
def do_print_and_close_v4 (processed : Option Nat) (src : Option Nat)
    (s : UiState) : UiState × RequestOutcome :=
  match processed with
  | none => (s, RequestOutcome.rejectedNoImage)
  | some img =>
    ({ eventSet := true, sourceImage := src, displayImage := some img },
      RequestOutcome.accepted)

/-- C9 evaluation at the failing input: while a job is in flight
(`eventSet = true`, the worker printing image `0`), a v4 print request
for image `1` is accepted — not rejected busy — and overwrites the
worker-visible state; the v2 entry point in the same state rejects the
request with the busy signal and leaves the state unchanged. -/
theorem busy_request_evaluation :
    (do_print_and_close_v4 (some 1) (some 1) (UiState.mk true (some 0) (some 0))).2
      = RequestOutcome.accepted ∧
    (do_print_and_close_v4 (some 1) (some 1) (UiState.mk true (some 0) (some 0))).1
      ≠ UiState.mk true (some 0) (some 0) ∧
    (print_image_v2 (UiState.mk true (some 0) (some 0))).2
      = RequestOutcome.rejectedBusy ∧
    (print_image_v2 (UiState.mk true (some 0) (some 0))).1
      = UiState.mk true (some 0) (some 0) := by
  decide

/-- Python `str.replace(k, v)` over a character list: scan left to
right, replacing each non-overlapping occurrence of `k` by `v` and
continuing after the replacement.  (`sanitize_for_printer` only calls
it with non-empty keys; an empty key leaves the string unchanged
here.) -/
def replaceAll (k v : List Char) (s : List Char) : List Char :=
  match s with
  | [] => []
  | c :: cs =>
    if h : k ≠ [] ∧ (c :: cs).take k.length = k then
      v ++ replaceAll k v ((c :: cs).drop k.length)
    else
      c :: replaceAll k v cs
termination_by s.length
decreasing_by
  · have hk : 0 < k.length := List.length_pos.mpr h.1
    simp only [List.length_drop, List.length_cons]
    omega
  · simp only [List.length_cons]
    omega

/-- The 128 characters that the CP437 codepage maps to bytes 0x80-0xFF,
modelled from Python's `cp437` codec charmap (the codec encodes
U+0000-U+007F identically to ASCII). -/
def cp437High : List Char :=
  ("ÇüéâäàåçêëèïîìÄÅÉæÆôöòûùÿÖÜ¢£¥₧ƒáíóúñÑªº¿⌐¬½¼¡«»░▒▓│┤╡╢╖╕╣║╗╝╜╛┐└┴┬├─┼╞╟╚╔╩╦╠═╬╧╨╤╥╙╘╒╓╫╪┘┌█▄▌▐▀αßΓπΣσµτΦΘΩδ∞φε∩≡±≥≤⌠⌡÷≈°∙·√ⁿ²■ ").toList

/-- Whether a character encodes under CP437: either plain ASCII
(codepoint below 128) or one of the 128 high-table characters.
`s.encode("cp437", errors="strict")` succeeds exactly when every
character of `s` satisfies this predicate. -/
def cp437Encodable (c : Char) : Bool :=
  c.toNat < 128 || cp437High.contains c

/-- The `CP437_SAFE_REPLACEMENTS` table of src/print3r_v4.py lines
121-128, in dictionary insertion order: typographic dashes and quotes
and a handful of emoji are mapped to ASCII before encoding. -/
def cp437Replacements : List (String × String) :=
  [("—", "-"), ("–", "-"),
   ("“", "\""), ("”", "\""),
   ("‘", "'"), ("’", "'"),
   ("☀️", "SUN"), ("🌤️", "SUN"), ("⛅", "CLOUDS"), ("☁️", "CLOUDS"),
   ("🌫️", "FOG"), ("🌦️", "SHWRS"), ("🌧️", "RAIN"),
   ("❄️", "SNOW"), ("⛈️", "TSTMS"),
   ("📅", "CAL"), ("🤣", "JOKE")]

/-- `sanitize_for_printer` of src/print3r_v4.py lines 130-138: apply
the replacement table, then try `s.encode("cp437", errors="strict")`;
if that succeeds return the string unchanged, otherwise return
`s.encode("cp437", errors="replace").decode("cp437")`, which replaces
every non-encodable character by the ASCII replacement character `?`
and maps every encodable character to itself.  Both the
`errors="replace"` encode and the `cp437` decode are total, so the
Python function never raises, which the model reflects by being a total
function. -/
def sanitize_for_printer (s : List Char) : List Char :=
  let t := cp437Replacements.foldl (fun acc kv => replaceAll kv.1.toList kv.2.toList acc) s
  if t.all cp437Encodable then t
  else t.map (fun c => if cp437Encodable c then c else '?')

/-- C10: for every input string, `sanitize_for_printer` returns a
string every character of which encodes under CP437 (unsupported
characters having been replaced by an ASCII equivalent or by the
replacement character `?`), and — being a total function whose Python
original only uses the non-raising `errors="replace"` encode and the
total `cp437` decode on its fallback path — it never raises. -/
theorem sanitize_for_printer_cp437_safe (s : List Char) :
    (sanitize_for_printer s).all cp437Encodable = true := by
  unfold sanitize_for_printer
  set t := cp437Replacements.foldl
    (fun acc kv => replaceAll kv.1.toList kv.2.toList acc) s with ht
  by_cases h : t.all cp437Encodable = true
  · rw [if_pos h]
    exact h
  · rw [if_neg h]
    rw [List.all_eq_true]
    intro c hc
    rcases List.mem_map.mp hc with ⟨c0, _, hceq⟩
    rw [← hceq]
    by_cases h0 : cp437Encodable c0 = true
    · rw [if_pos h0]
      exact h0
    · rw [if_neg h0]
      decide
